import Mathlib

/-!
Shallow embedding of `src/memory.rs` (nirvana-notject): region scanning,
typed memory access and masked pattern search, together with theorems
checking the specified behaviour of each operation against the embedded code.

Conventions used throughout:
* Rust `usize` is modelled as `Nat`; the 64-bit bound is made explicit at the
  two places where the source can overflow or underflow (`scan_memory`'s
  cursor advance and `find_pattern`'s offset-range upper bound).
* Rust integer overflow/underflow is a program error (a panic in debug
  builds); it is modelled as a distinguished failure outcome:
  `ScanResult.overflow` for the scanner, `none` in the `Option`-valued
  results of the pattern matcher.  Slice-index panics (`mask[j]`,
  `buffer[i + j]`, `pattern[j]`) are likewise modelled as `none`.
* The OS calls (`VirtualQueryEx`, `ReadProcessMemory`, `WriteProcessMemory`)
  are passed in as function-valued parameters describing the environment:
  `none` models a zero return value (failure), `some` models success together
  with the data the call reported.
* Byte values (`u8`) are modelled as `Nat`; the code only compares bytes for
  equality, so the width never matters.
-/

/-- `usize::MAX` on the 64-bit target: `2^64 - 1`. -/
def usizeMax : Nat := 2 ^ 64 - 1

/-- One past `usize::MAX`: addition of two `usize` values overflows exactly
when the mathematical sum reaches `wordSize`. -/
def wordSize : Nat := 2 ^ 64

/-- The fields of `MEMORY_BASIC_INFORMATION` that `scan_memory` reads
(`src/memory.rs` lines 33-42; the fields `allocation_base`,
`allocation_protect` and `type` are never consulted and are omitted). -/
structure MBI where
  base_address : Nat
  region_size : Nat
  state : Nat
  protect : Nat
deriving DecidableEq

/-- `MemoryRegion` (`src/memory.rs` lines 49-57). -/
structure MemoryRegion where
  start_address : Nat
  size : Nat
  is_readable : Bool
  is_writable : Bool
  is_executable : Bool
  protection : Nat
deriving DecidableEq

/-- The region record built by `scan_memory` for a committed region
(`src/memory.rs` lines 99-106): the derived flags test one single bit each,
`protect & 0x1`, `protect & 0x40`, `protect & 0x10`. -/
def classify_region (mbi : MBI) : MemoryRegion :=
  { start_address := mbi.base_address
    size := mbi.region_size
    is_readable := (mbi.protect &&& 0x1) != 0
    is_writable := (mbi.protect &&& 0x40) != 0
    is_executable := (mbi.protect &&& 0x10) != 0
    protection := mbi.protect }

/-- Outcome of the scan loop in the embedding: `ok` is normal termination
with the final contents of `self.regions`; `overflow` is the arithmetic
overflow of `mbi.base_address as usize + mbi.region_size` (a panic in debug
builds, a wrap in release builds — either way not the saturating arithmetic
the specification calls for); `fuelOut` means the loop did not finish within
the given fuel (the loop body of the source has no built-in bound). -/
inductive ScanResult where
  | ok (regions : List MemoryRegion)
  | overflow
  | fuelOut
deriving DecidableEq

/-- The `while address < usize::MAX` loop of `scan_memory`
(`src/memory.rs` lines 83-111), with the query call abstracted:
`query address = none` models `VirtualQueryEx` returning 0 (stop),
`some mbi` models a successful query.  Only committed regions
(`state == 0x1000`) are appended; the cursor then advances to
`mbi.base_address + mbi.region_size` with unchecked addition. -/
def scan_loop (query : Nat → Option MBI) : Nat → Nat → List MemoryRegion → ScanResult
  | 0, _, _ => ScanResult.fuelOut
  | Nat.succ fuel, address, regions =>
    if address < usizeMax then
      match query address with
      | none => ScanResult.ok regions
      | some mbi =>
        if mbi.base_address + mbi.region_size < wordSize then
          scan_loop query fuel (mbi.base_address + mbi.region_size)
            (if mbi.state = 0x1000 then regions ++ [classify_region mbi] else regions)
        else ScanResult.overflow
    else ScanResult.ok regions

/-- `Memory::scan_memory` (`src/memory.rs` lines 80-114): starts the cursor
at 0 and pushes onto the *existing* `self.regions` vector (the source never
clears it), so the prior catalog is the initial accumulator. -/
def scan_memory (query : Nat → Option MBI) (fuel : Nat)
    (regions : List MemoryRegion) : ScanResult :=
  scan_loop query fuel 0 regions

/-- `Memory::read_memory::<T>` (`src/memory.rs` lines 116-135), parameterised
by `sizeof(T)` and by the outcome of the `ReadProcessMemory` call:
`os_result` is whether the call returned nonzero, `bytes_read` the count it
reported, `buffer` the `T`-sized byte buffer after the call (zero-initialised
by `mem::zeroed`, then possibly partially overwritten).  The source checks
only `result == 0`; `sizeT` and `bytes_read` are never consulted. -/
def read_memory (sizeT : Nat) (os_result : Bool) (bytes_read : Nat)
    (buffer : List Nat) : Option (List Nat) :=
  if os_result then some buffer else none

/-- `Memory::write_memory::<T>` (`src/memory.rs` lines 137-155): the same
shape for the write direction; only `result == 0` is checked. -/
def write_memory (sizeT : Nat) (os_result : Bool) (bytes_written : Nat) :
    Option Unit :=
  if os_result then some () else none

/-- The inner matching loop `for j in 0..pattern.len()` of `find_pattern`
(`src/memory.rs` lines 182-187), testing `mask[j] && buffer[i + j] != pattern[j]`
with Rust's short-circuit `&&` and panicking indexing.  `j` is the current
index, the second `Nat` argument counts the remaining iterations.
`some true` = `found` stayed true, `some false` = mismatch (break),
`none` = an index panic. -/
def match_loop (buffer pattern : List Nat) (mask : List Bool) (i : Nat) :
    Nat → Nat → Option Bool
  | _, 0 => some true
  | j, Nat.succ n =>
    match mask.get? j with
    | none => none
    | some m =>
      if m then
        match buffer.get? (i + j), pattern.get? j with
        | some b, some p =>
          if b ≠ p then some false
          else match_loop buffer pattern mask i (j + 1) n
        | _, _ => none
      else match_loop buffer pattern mask i (j + 1) n

/-- One candidate offset `i` of `find_pattern`: the whole inner loop. -/
def match_at (buffer pattern : List Nat) (mask : List Bool) (i : Nat) :
    Option Bool :=
  match_loop buffer pattern mask i 0 pattern.length

/-- The offset loop `for i in 0..(bytes_read - pattern.len())` of
`find_pattern` (`src/memory.rs` lines 180-191): `i` is the current offset and
the second `Nat` argument the number of remaining iterations (the source
range is exclusive at the top).  `some (some i)` = first matching offset,
`some none` = the loop finished without a match, `none` = an index panic. -/
def search_loop (buffer pattern : List Nat) (mask : List Bool) :
    Nat → Nat → Option (Option Nat)
  | _, 0 => some none
  | i, Nat.succ n =>
    match match_at buffer pattern mask i with
    | none => none
    | some true => some (some i)
    | some false => search_loop buffer pattern mask (i + 1) n

/-- `Memory::find_pattern` (`src/memory.rs` lines 157-195), with the
`ReadProcessMemory` call abstracted: `osRead start size = none` models a zero
return value, `some (bytes_read, buffer)` a nonzero return together with the
reported count and the final contents of the `vec![0u8; region.size]` buffer.
The guard `bytes_read < pattern.length → none` models the `usize` underflow
of `bytes_read - pattern.len()` in the source's range expression (a panic in
debug builds; in release builds the wrapped bound makes `buffer[i + j]` index
out of bounds, also a panic).  Overall result: `none` = panic,
`some none` = `Ok(None)`, `some (some a)` = `Ok(Some(a))`. -/
def find_pattern (osRead : Nat → Nat → Option (Nat × List Nat))
    (pattern : List Nat) (mask : List Bool) :
    List MemoryRegion → Option (Option Nat)
  | [] => some none
  | region :: rest =>
    if region.is_readable then
      match osRead region.start_address region.size with
      | none => find_pattern osRead pattern mask rest
      | some br =>
        if br.1 < pattern.length then none
        else
          match search_loop br.2 pattern mask 0 (br.1 - pattern.length) with
          | none => none
          | some (some i) => some (some (region.start_address + i))
          | some none => find_pattern osRead pattern mask rest
    else find_pattern osRead pattern mask rest

/-! ### Concrete environments used to evaluate the embedded code -/

/-- A single committed page `[0, 0x1000)` with protection code `0x04`
(`PAGE_READWRITE`); queries away from the region boundary report end of
address space. -/
def demoMBI : MBI := ⟨0, 0x1000, 0x1000, 0x04⟩

/-- Memory layout with `demoMBI` as its only region. -/
def demoQuery : Nat → Option MBI := fun a => if a = 0 then some demoMBI else none

/-- The catalog entry `scan_memory` records for `demoMBI`. -/
def demoRegion : MemoryRegion := classify_region demoMBI

/-- A single committed region covering the whole address space `[0, 2^64)`. -/
def topMBI : MBI := ⟨0, 2 ^ 64, 0x1000, 0x04⟩

/-- Memory layout with `topMBI` as its only region. -/
def topQuery : Nat → Option MBI := fun a => if a = 0 then some topMBI else none

/-- A readable 2-byte region at `0x1000`. -/
def shortRegion : MemoryRegion := ⟨0x1000, 2, true, false, false, 0x04⟩

/-- A read call that copies `shortRegion` in full: 2 bytes transferred. -/
def shortRead : Nat → Nat → Option (Nat × List Nat) :=
  fun a _ => if a = 0x1000 then some (2, [0, 0]) else none

/-- A readable 3-byte region at `0x2000`. -/
def boundRegion : MemoryRegion := ⟨0x2000, 3, true, false, false, 0x02⟩

/-- A read call that copies `boundRegion` in full: the buffer is exactly the
pattern `[0x90, 0x90, 0x90]`. -/
def boundRead : Nat → Nat → Option (Nat × List Nat) :=
  fun a _ => if a = 0x2000 then some (3, [0x90, 0x90, 0x90]) else none

/-- A readable 4-byte region at `0x3000`. -/
def partRegion : MemoryRegion := ⟨0x3000, 4, true, false, false, 0x02⟩

/-- A read call that transfers only 2 of the 4 requested bytes of
`partRegion` while still reporting success. -/
def partRead : Nat → Nat → Option (Nat × List Nat) :=
  fun a _ => if a = 0x3000 then some (2, [9, 9, 0, 0]) else none

/-- A region recorded as not readable. -/
def noReadRegion : MemoryRegion := ⟨0x4000, 4, false, false, false, 0x01⟩

/-! ### Theorems for the claims -/

/-- C1: the claim says a region whose successfully read byte count is smaller
than the pattern length is skipped without any comparison and without
faulting, the offset-range computation being explicitly guarded against
underflow.  The code has no such guard: on a readable region of size 2 whose
copy succeeds with `bytes_read = 2` and a pattern of length 3, the range
expression `bytes_read - pattern.len()` underflows and `find_pattern` panics
(result `none`) instead of skipping the region and returning `Ok(None)`. -/
theorem find_pattern_short_read_underflow :
    find_pattern shortRead [1, 2, 3] [true, true, true] [shortRegion] = none := by
  decide

/-- C2: the claim says each derived flag is true exactly when the raw
protection code contains some combination implying that access kind.  The
code tests one single bit per flag, so the committed `PAGE_READWRITE`
(`0x04`) page of `demoQuery` is recorded by `scan_memory` as neither readable
nor writable, while a `PAGE_NOACCESS` (`0x01`) descriptor is classified as
readable. -/
theorem scan_protection_misclassified :
    scan_memory demoQuery 5 [] =
      ScanResult.ok [{ start_address := 0, size := 0x1000, is_readable := false,
                       is_writable := false, is_executable := false,
                       protection := 0x04 }] ∧
    (classify_region ⟨0, 0x1000, 0x1000, 0x01⟩).is_readable = true := by
  constructor
  · decide
  · decide

/-- C3 counterexample: the claim says `read` and `write` fail whenever the
transferred byte count is below `sizeof(T)`.  With `sizeof(T) = 4` and an OS
call that reports success with only 2 bytes transferred, `read_memory`
returns the partially zero-filled buffer as a success value and
`write_memory` returns success as well. -/
theorem typed_access_partial_success :
    read_memory 4 true 2 [7, 7, 0, 0] = some [7, 7, 0, 0] ∧
    write_memory 4 true 2 = some () ∧ (2 : Nat) < 4 := by
  decide

/-- C3 (amended): `read_memory` and `write_memory` fail exactly when the OS
transfer call reports failure (`result == 0`); the transferred byte count is
never compared against `sizeof(T)`. -/
theorem typed_access_fail_iff_flag (sizeT : Nat) (res : Bool) (br bw : Nat)
    (buf : List Nat) :
    (read_memory sizeT res br buf = none ↔ res = false) ∧
    (write_memory sizeT res bw = none ↔ res = false) := by
  cases res <;> simp [read_memory, write_memory]

/-- C4: the claim says candidate offsets `0 .. bytes_read - pattern.length`
inclusive are examined.  The source range is exclusive at the top: on a
readable region fully copied as `[0x90, 0x90, 0x90]` with pattern
`[0x90, 0x90, 0x90]` (mask all true), the only candidate offset is the final
one, `bytes_read - pattern.length = 0`; the inner loop reports a match there
(second conjunct), yet `find_pattern` returns `Ok(None)` because the offset
loop `0..(3 - 3)` runs zero times. -/
theorem find_pattern_last_offset_missed :
    find_pattern boundRead [0x90, 0x90, 0x90] [true, true, true] [boundRegion] =
      some none ∧
    match_at [0x90, 0x90, 0x90] [0x90, 0x90, 0x90] [true, true, true] 0 =
      some true := by
  decide

/-- C5: the claim says a new scan discards and replaces the prior catalog.
The code pushes onto `self.regions` without clearing it: over the unchanged
one-region layout `demoQuery`, a first scan yields `[demoRegion]` but a
second scan starting from that catalog yields `[demoRegion, demoRegion]` —
the catalog is appended to, not replaced. -/
theorem scan_memory_appends_on_rescan :
    scan_memory demoQuery 5 [] = ScanResult.ok [demoRegion] ∧
    scan_memory demoQuery 5 [demoRegion] =
      ScanResult.ok [demoRegion, demoRegion] := by
  constructor
  · decide
  · decide

/-- C7: the claim says the cursor is advanced with saturating arithmetic so
that reaching the top of the address space ends the loop.  The code advances
with unchecked `+`: on a layout whose single committed region covers
`[0, 2^64)`, the sum `base_address + region_size = 2^64` overflows `usize`
and the scan panics (debug) or wraps the cursor to 0 and rescans (release)
instead of terminating at the top. -/
theorem scan_memory_top_region_overflow :
    scan_memory topQuery 5 [] = ScanResult.overflow := by
  decide

/-- C8 counterexample: the claim says a region whose copy transfers fewer
bytes than requested is skipped.  On `partRegion` (size 4) whose copy
reports success with only 2 bytes, `find_pattern` scans the transferred
prefix and returns a match found inside it — the region is not skipped
(skipping it would give the empty-catalog result `Ok(None)`). -/
theorem find_pattern_partial_read_scanned :
    find_pattern partRead [9] [true] [partRegion] = some (some 0x3000) ∧
    find_pattern partRead [9] [true] [] = some none := by
  decide

/-! ### Scan catalog invariants (C6) -/

/-- Invariant of `scan_loop`: when the query always reports a nonempty region
starting at or after the queried cursor, a normally terminating scan extends
an accumulator of nonempty, pairwise-separated regions lying below the cursor
into a catalog with the same two properties. -/
theorem scan_loop_ok_inv (query : Nat → Option MBI)
    (Hq : ∀ a mbi, query a = some mbi →
      a ≤ mbi.base_address ∧ 0 < mbi.region_size) :
    ∀ fuel address acc rs,
    (∀ r ∈ acc, 0 < r.size) →
    (∀ r ∈ acc, r.start_address + r.size ≤ address) →
    acc.Pairwise (fun r s => r.start_address + r.size ≤ s.start_address) →
    scan_loop query fuel address acc = ScanResult.ok rs →
    ((∀ r ∈ rs, 0 < r.size) ∧
      rs.Pairwise (fun r s => r.start_address + r.size ≤ s.start_address)) := by
  intro fuel
  induction fuel with
  | zero =>
    intro address acc rs _ _ _ h
    simp [scan_loop] at h
  | succ n ih =>
    intro address acc rs h1 h2 h3 h
    simp only [scan_loop] at h
    split at h
    · split at h
      · injection h with h
        subst h
        exact ⟨h1, h3⟩
      · rename_i mbi heq
        obtain ⟨hle, hpos⟩ := Hq address mbi heq
        split at h
        · refine ih (mbi.base_address + mbi.region_size) _ rs ?_ ?_ ?_ h
          · intro r hr
            by_cases hst : mbi.state = 0x1000
            · rw [if_pos hst] at hr
              rcases List.mem_append.mp hr with hmem | hmem
              · exact h1 r hmem
              · rw [List.mem_singleton] at hmem
                subst hmem
                exact hpos
            · rw [if_neg hst] at hr
              exact h1 r hr
          · intro r hr
            by_cases hst : mbi.state = 0x1000
            · rw [if_pos hst] at hr
              rcases List.mem_append.mp hr with hmem | hmem
              · have := h2 r hmem
                omega
              · rw [List.mem_singleton] at hmem
                subst hmem
                exact le_rfl
            · rw [if_neg hst] at hr
              have := h2 r hr
              omega
          · by_cases hst : mbi.state = 0x1000
            · rw [if_pos hst]
              refine List.pairwise_append.mpr ⟨h3, List.pairwise_singleton _ _, ?_⟩
              intro x hx y hy
              rw [List.mem_singleton] at hy
              subst hy
              have := h2 x hx
              show x.start_address + x.size ≤ mbi.base_address
              omega
            · rw [if_neg hst]
              exact h3
        · exact ScanResult.noConfusion h
    · injection h with h
      subst h
      exact ⟨h1, h3⟩

/-- Pairwise separation plus positive sizes gives strictly increasing start
addresses. -/
theorem pairwise_sep_strict (rs : List MemoryRegion)
    (hpos : ∀ r ∈ rs, 0 < r.size)
    (h : rs.Pairwise fun r s => r.start_address + r.size ≤ s.start_address) :
    rs.Pairwise fun r s => r.start_address < s.start_address := by
  induction rs with
  | nil => exact List.Pairwise.nil
  | cons r rest ih =>
    rw [List.pairwise_cons] at h ⊢
    obtain ⟨hr, hrest⟩ := h
    refine ⟨?_, ih (fun x hx => hpos x (List.mem_cons_of_mem _ hx)) hrest⟩
    intro s hs
    have h1 := hr s hs
    have h2 := hpos r (List.mem_cons_self _ _)
    omega

/-- C6 (amended): every catalog produced by a scan that starts from an empty
catalog — over a query that always reports a nonempty region starting at or
after the queried cursor — lists its regions in strictly increasing
`start_address` order, gives every region a positive size, and contains no
two overlapping regions (each region ends at or before the next begins). -/
theorem scan_from_empty_catalog_props (query : Nat → Option MBI) (fuel : Nat)
    (rs : List MemoryRegion)
    (Hq : ∀ a mbi, query a = some mbi →
      a ≤ mbi.base_address ∧ 0 < mbi.region_size)
    (h : scan_memory query fuel [] = ScanResult.ok rs) :
    rs.Pairwise (fun r s => r.start_address < s.start_address) ∧
    (∀ r ∈ rs, 0 < r.size) ∧
    rs.Pairwise (fun r s => r.start_address + r.size ≤ s.start_address) := by
  have key := scan_loop_ok_inv query Hq fuel 0 [] rs (by simp) (by simp)
    List.Pairwise.nil h
  exact ⟨pairwise_sep_strict rs key.1 key.2, key.1, key.2⟩

/-- C6 counterexample: the claim quantifies over every catalog produced by
`scan_memory`, but because a rescan appends to the existing catalog, the
second scan over the unchanged layout `demoQuery` produces the catalog
`[demoRegion, demoRegion]`, which is not strictly increasing in
`start_address`. -/
theorem rescan_catalog_not_sorted :
    scan_memory demoQuery 5 [demoRegion] =
      ScanResult.ok [demoRegion, demoRegion] ∧
    ¬ List.Pairwise (fun r s => r.start_address < s.start_address)
        [demoRegion, demoRegion] := by
  constructor
  · decide
  · decide

/-- Witness for `scan_from_empty_catalog_props` at the concrete layout
`demoQuery` with fuel 5, whose first scan produces `[demoRegion]`. -/
theorem scan_from_empty_catalog_props_witness :
    List.Pairwise (fun r s => r.start_address < s.start_address) [demoRegion] ∧
    (∀ r ∈ [demoRegion], 0 < r.size) ∧
    List.Pairwise (fun r s => r.start_address + r.size ≤ s.start_address)
      [demoRegion] := by
  refine scan_from_empty_catalog_props demoQuery 5 [demoRegion] ?_ (by decide)
  intro a mbi h
  simp only [demoQuery] at h
  split at h
  · rename_i ha
    injection h with h
    subst h
    subst ha
    exact ⟨by decide, by decide⟩
  · exact Option.noConfusion h

/-! ### Skip behaviour of the pattern matcher (C8) -/

/-- C8 (amended): a region that is not readable or whose copy fails outright
is skipped — the result over `r :: rest` equals the result over `rest` — and
a catalog none of whose regions is readable yields `Ok(None)` as a success
value; a readable region whose copy reports at least `pattern.length` bytes
is scanned over the transferred prefix, a match there being returned. -/
theorem find_pattern_skip_and_none
    (osRead : Nat → Nat → Option (Nat × List Nat))
    (pattern : List Nat) (mask : List Bool) :
    (∀ (r : MemoryRegion) (rest : List MemoryRegion),
        r.is_readable = false ∨ osRead r.start_address r.size = none →
        find_pattern osRead pattern mask (r :: rest) =
          find_pattern osRead pattern mask rest) ∧
    (∀ rs : List MemoryRegion, (∀ r ∈ rs, r.is_readable = false) →
        find_pattern osRead pattern mask rs = some none) ∧
    (∀ (r : MemoryRegion) (rest : List MemoryRegion) (br : Nat)
        (buf : List Nat) (i : Nat),
        r.is_readable = true →
        osRead r.start_address r.size = some (br, buf) →
        pattern.length ≤ br →
        search_loop buf pattern mask 0 (br - pattern.length) = some (some i) →
        find_pattern osRead pattern mask (r :: rest) =
          some (some (r.start_address + i))) := by
  refine ⟨?_, ?_, ?_⟩
  · intro r rest h
    rcases h with h | h
    · simp [find_pattern, h]
    · cases hr : r.is_readable
      · simp [find_pattern, hr]
      · simp [find_pattern, hr, h]
  · intro rs h
    induction rs with
    | nil => rfl
    | cons r rest ih =>
      have hr := h r (List.mem_cons_self _ _)
      have hrest := ih fun x hx => h x (List.mem_cons_of_mem _ hx)
      simp [find_pattern, hr, hrest]
  · intro r rest br buf i hr hos hlen hs
    simp only [find_pattern, hr, if_true, hos, hs]
    rw [if_neg (Nat.not_lt.mpr hlen)]

/-- Witness for `find_pattern_skip_and_none` at concrete inputs: the
unreadable region `noReadRegion` is skipped, a catalog holding only it yields
`Ok(None)`, and the partially copied `partRegion` yields the match its
transferred prefix contains. -/
theorem find_pattern_skip_and_none_witness :
    (find_pattern partRead [9] [true] (noReadRegion :: [partRegion]) =
       find_pattern partRead [9] [true] [partRegion]) ∧
    find_pattern partRead [9] [true] [noReadRegion] = some none ∧
    find_pattern partRead [9] [true] (partRegion :: []) =
      some (some (partRegion.start_address + 0)) := by
  refine ⟨(find_pattern_skip_and_none partRead [9] [true]).1 noReadRegion
      [partRegion] (Or.inl rfl),
    (find_pattern_skip_and_none partRead [9] [true]).2.1 [noReadRegion] ?_,
    (find_pattern_skip_and_none partRead [9] [true]).2.2 partRegion [] 2
      [9, 9, 0, 0] 0 rfl rfl (by decide) (by decide)⟩
  intro r hr
  rw [List.mem_singleton] at hr
  subst hr
  rfl

/-! ### Mask accesses of the pattern matcher (C9) -/

/-- When the mask is at least as long as the pattern and the window starting
at `i` fits inside the buffer, the inner matching loop never hits an index
panic. -/
theorem match_loop_isSome (buffer pattern : List Nat) (mask : List Bool)
    (i : Nat) (hm : pattern.length ≤ mask.length)
    (hb : i + pattern.length ≤ buffer.length) :
    ∀ n j, j + n = pattern.length →
      (match_loop buffer pattern mask i j n).isSome = true := by
  intro n
  induction n with
  | zero => intro j _; rfl
  | succ k ih =>
    intro j hj
    simp only [match_loop]
    cases hmk : mask.get? j with
    | none =>
      have := List.get?_eq_none.mp hmk
      omega
    | some m =>
      cases m with
      | false =>
        simpa using ih (j + 1) (by omega)
      | true =>
        simp only [if_true]
        cases hbk : buffer.get? (i + j) with
        | none =>
          have := List.get?_eq_none.mp hbk
          omega
        | some b =>
          cases hpk : pattern.get? j with
          | none =>
            have := List.get?_eq_none.mp hpk
            omega
          | some p =>
            by_cases hbp : b = p
            · simpa [hbp] using ih (j + 1) (by omega)
            · simp [hbp]

/-- The inner matching loop only reads mask entries at indices below
`pattern.length`: appending extra entries to a sufficiently long mask leaves
it unchanged. -/
theorem match_loop_mask_append (buffer pattern : List Nat)
    (mask extra : List Bool) (i : Nat) (hm : pattern.length ≤ mask.length) :
    ∀ n j, j + n = pattern.length →
      match_loop buffer pattern (mask ++ extra) i j n =
        match_loop buffer pattern mask i j n := by
  intro n
  induction n with
  | zero => intro j _; rfl
  | succ k ih =>
    intro j hj
    have hjlt : j < mask.length := by omega
    simp only [match_loop]
    rw [List.get?_append hjlt]
    cases hmk : mask.get? j with
    | none => rfl
    | some m =>
      cases m with
      | false =>
        simpa using ih (j + 1) (by omega)
      | true =>
        simp only [if_true]
        cases buffer.get? (i + j) with
        | none => rfl
        | some b =>
          cases pattern.get? j with
          | none => rfl
          | some p =>
            by_cases hbp : b = p
            · simpa [hbp] using ih (j + 1) (by omega)
            · simp [hbp]

/-- The offset loop under a mask extension. -/
theorem search_loop_mask_append (buffer pattern : List Nat)
    (mask extra : List Bool) (hm : pattern.length ≤ mask.length) :
    ∀ n i, search_loop buffer pattern (mask ++ extra) i n =
      search_loop buffer pattern mask i n := by
  intro n
  induction n with
  | zero => intro i; rfl
  | succ k ih =>
    intro i
    simp only [search_loop, match_at]
    rw [match_loop_mask_append buffer pattern mask extra i hm pattern.length 0
      (by omega)]
    cases match_loop buffer pattern mask i 0 pattern.length with
    | none => rfl
    | some b =>
      cases b with
      | false => simpa using ih (i + 1)
      | true => rfl

/-- The whole pattern search under a mask extension. -/
theorem find_pattern_mask_append_aux
    (osRead : Nat → Nat → Option (Nat × List Nat)) (pattern : List Nat)
    (mask extra : List Bool) (hm : pattern.length ≤ mask.length) :
    ∀ rs, find_pattern osRead pattern (mask ++ extra) rs =
      find_pattern osRead pattern mask rs := by
  intro rs
  induction rs with
  | nil => rfl
  | cons r rest ih =>
    simp only [find_pattern]
    cases r.is_readable with
    | false => simpa using ih
    | true =>
      simp only [if_true]
      cases osRead r.start_address r.size with
      | none => exact ih
      | some br =>
        by_cases hlt : br.1 < pattern.length
        · simp [hlt]
        · simp only [if_neg hlt,
            search_loop_mask_append br.2 pattern mask extra hm
              (br.1 - pattern.length) 0]
          cases search_loop br.2 pattern mask 0 (br.1 - pattern.length) with
          | none => rfl
          | some o =>
            cases o with
            | none => exact ih
            | some v => rfl

/-- C9: `find_pattern` never reads the mask beyond index
`pattern.length - 1`.  First conjunct: whenever the mask is at least as long
as the pattern (in particular under the specified invariant
`mask.length == pattern.length`) and the candidate window fits in the
buffer, the matching loop performs no out-of-bounds access (no panic).
Second conjunct: extra trailing mask entries are ignored — the search result
over `mask ++ extra` equals the one over `mask` — so `find_pattern` performs
no validation of the mask length and never consults the extra entries. -/
theorem find_pattern_mask_access_bounded
    (osRead : Nat → Nat → Option (Nat × List Nat))
    (pattern buffer : List Nat) (mask extra : List Bool) (i : Nat)
    (rs : List MemoryRegion) (hm : pattern.length ≤ mask.length) :
    (i + pattern.length ≤ buffer.length →
      (match_at buffer pattern mask i).isSome = true) ∧
    find_pattern osRead pattern (mask ++ extra) rs =
      find_pattern osRead pattern mask rs := by
  constructor
  · intro hb
    exact match_loop_isSome buffer pattern mask i hm hb pattern.length 0
      (by omega)
  · exact find_pattern_mask_append_aux osRead pattern mask extra hm rs

/-- Witness for `find_pattern_mask_access_bounded` at concrete inputs. -/
theorem find_pattern_mask_access_bounded_witness :
    ((0 + ([9] : List Nat).length ≤ ([9, 9, 0, 0] : List Nat).length →
       (match_at [9, 9, 0, 0] [9] [true] 0).isSome = true) ∧
     find_pattern partRead [9] ([true] ++ [false]) [partRegion] =
       find_pattern partRead [9] [true] [partRegion]) :=
  find_pattern_mask_access_bounded partRead [9] [9, 9, 0, 0] [true] [false] 0
    [partRegion] (by decide)

/-! ### Empty patterns (C10) -/

/-- C10: with an empty pattern (the mask playing no role), `find_pattern`
returns, as a success value, the `start_address` of the first region in
catalog order that is readable and whose copy succeeds with at least one
byte transferred (offset 0 matches vacuously), and `Ok(None)` when no such
region exists. -/
theorem find_pattern_empty_pattern
    (osRead : Nat → Nat → Option (Nat × List Nat)) (mask : List Bool)
    (rs : List MemoryRegion) :
    find_pattern osRead [] mask rs =
      some ((rs.find? fun r => r.is_readable &&
          (match osRead r.start_address r.size with
           | none => false
           | some br => decide (1 ≤ br.1))).map fun r => r.start_address) := by
  induction rs with
  | nil => rfl
  | cons r rest ih =>
    simp only [find_pattern]
    cases hr : r.is_readable with
    | false => simp [List.find?, hr, ih]
    | true =>
      cases hos : osRead r.start_address r.size with
      | none => simp [List.find?, hr, hos, ih]
      | some br =>
        rcases br with ⟨brn, buf⟩
        cases brn with
        | zero => simp [List.find?, hr, hos, ih, search_loop]
        | succ k =>
          simp [List.find?, hr, hos, search_loop, match_at, match_loop,
            decide_eq_true (Nat.succ_le_succ (Nat.zero_le k))]
